import Mathlib

/-!
Verification of the incremental archive-verification tool
(`src/ArchiveVerifier.py`) against its design specification.

The development shallowly embeds the state-bearing core of the program:

* the persisted record store (`data["files"]`): association lists from
  path to `Record`, mirroring Python `OrderedDict` semantics;
* the reconciler `merge_file_records`;
* the multi-volume classifier `is_first_volume`;
* the outcome classification and record update performed by
  `process_file` after the external verifier exits;
* the file-system effect traces of the two persistence sites (the direct
  rewrite in `process_directory` and the temp-file-plus-replace in
  `process_file`);
* the precondition checks of `main`;
* an interleaving semantics for concurrently completing verification
  tasks, each performing the load-modify-save cycle of `process_file`.
-/

set_option maxHeartbeats 1000000

namespace ArchiveVerifier

/-- The verification result states stored in a record: the string values
`"unchecked"`, `"success"`, `"failure"`, `"encrypted"`, `"deleted"` used
throughout `ArchiveVerifier.py`. -/
inductive VResult
  | unchecked
  | success
  | failure
  | encrypted
  | deleted
deriving DecidableEq

/-- One persisted record: the value part of an entry of `data["files"]`
(fields `result` and `timestamp`, the latter holding `st_mtime_ns`). -/
structure Record where
  result : VResult
  timestamp : Int
deriving DecidableEq

/-- `data["files"]`: an ordered mapping path → record (Python
`OrderedDict`), modelled as an association list in insertion order. -/
abbrev FileMap := List (String × Record)

/-- The physical snapshot produced by `scan_physical_files`: an ordered
mapping path → `st_mtime_ns`. -/
abbrev PhysMap := List (String × Int)

/-- Lexicographic order on lists of code points: how Python compares two
strings (`sorted` on the keys of `merged`). -/
def natListLe : List Nat → List Nat → Bool
  | [], _ => true
  | _ :: _, [] => false
  | a :: as, b :: bs => if a < b then true else if b < a then false else natListLe as bs

/-- Python string comparison `s <= t`: lexicographic on code points. -/
def strLe (s t : String) : Bool :=
  natListLe (s.toList.map Char.toNat) (t.toList.map Char.toNat)

/-- Python `s.lower()` restricted to its ASCII action, as a character
list (the characters the program compares — `"part"`, `".rar"`,
`"password"`, `"encrypted"` — are ASCII). -/
def lowerChars (s : String) : List Char :=
  s.toList.map Char.toLower

/-- First-match association-list lookup (Python `d.get(k)` / `d[k]`;
dictionary keys are unique, so first match is the match). -/
def alookup {β : Type} (k : String) : List (String × β) → Option β
  | [] => none
  | (k2, v) :: rest => if k2 = k then some v else alookup k rest

/-- Python `k in d`. -/
def hasKey {β : Type} (k : String) (l : List (String × β)) : Bool :=
  (alookup k l).isSome

/-- The keys of an association list, in order. -/
def keys {β : Type} (l : List (String × β)) : List String :=
  l.map Prod.fst

/-- Python `d[k] = v` on a key already present: the value is replaced in
place, the position of the key is preserved. -/
def setKey {β : Type} (k : String) (v : β) : List (String × β) → List (String × β)
  | [] => []
  | (k2, w) :: rest => if k2 = k then (k2, v) :: rest else (k2, w) :: setKey k v rest

/-- First loop of `merge_file_records` (ArchiveVerifier.py lines 138–153),
processing the previous records in order.  A record whose path is absent
from the physical snapshot is re-emitted as `deleted` with its previous
timestamp unless its result is already `deleted`, in which case it is not
added to `merged` at all; a record whose path is present is copied, and
reset to `unchecked` with the observed timestamp when the stored timestamp
differs from the observed one. -/
def mergePass1 : FileMap → PhysMap → FileMap
  | [], _ => []
  | (path, record) :: rest, physical =>
    match alookup path physical with
    | none =>
      if record.result ≠ VResult.deleted then
        (path, ⟨VResult.deleted, record.timestamp⟩) :: mergePass1 rest physical
      else
        mergePass1 rest physical
    | some mtime =>
      (path, if record.timestamp ≠ mtime then ⟨VResult.unchecked, mtime⟩ else record)
        :: mergePass1 rest physical

/-- Final loop of `merge_file_records` (lines 161–166): append an
`unchecked` record for every physical path not already present in
`merged`. -/
def mergePass2 (merged : FileMap) : PhysMap → FileMap
  | [] => merged
  | (path, mtime) :: rest =>
    if hasKey path merged then mergePass2 merged rest
    else mergePass2 (merged ++ [(path, ⟨VResult.unchecked, mtime⟩)]) rest

/-- The key order used by the final
`OrderedDict(sorted(merged.items(), key=lambda x: x[0]))` (line 168). -/
def keyLe (a b : String × Record) : Prop := strLe a.1 b.1 = true

instance : DecidableRel keyLe := fun a b => inferInstanceAs (Decidable (strLe a.1 b.1 = true))

theorem natListLe_total : ∀ a b : List Nat, natListLe a b = true ∨ natListLe b a = true
  | [], _ => Or.inl rfl
  | _ :: _, [] => Or.inr rfl
  | a :: as, b :: bs => by
    simp only [natListLe]
    rcases Nat.lt_trichotomy a b with h | h | h
    · left; simp [h]
    · subst h
      have : ¬ a < a := lt_irrefl a
      rcases natListLe_total as bs with ih | ih <;> simp [this, ih]
    · right; simp [h]

theorem natListLe_trans : ∀ a b c : List Nat,
    natListLe a b = true → natListLe b c = true → natListLe a c = true
  | [], _, _ => fun _ _ => rfl
  | _ :: _, [], _ => fun h _ => by simp [natListLe] at h
  | _ :: _, _ :: _, [] => fun _ h => by simp [natListLe] at h
  | a :: as, b :: bs, c :: cs => fun hab hbc => by
    simp only [natListLe] at hab hbc ⊢
    by_cases hab1 : a < b
    · by_cases hbc1 : b < c
      · simp [Nat.lt_trans hab1 hbc1]
      · by_cases hbc2 : c < b
        · rw [if_neg hbc1, if_pos hbc2] at hbc; exact absurd hbc (by simp)
        · have hbceq : b = c := le_antisymm (not_lt.mp hbc2) (not_lt.mp hbc1)
          subst hbceq
          simp [hab1]
    · by_cases hab2 : b < a
      · rw [if_neg hab1, if_pos hab2] at hab; exact absurd hab (by simp)
      · have habeq : a = b := le_antisymm (not_lt.mp hab2) (not_lt.mp hab1)
        subst habeq
        rw [if_neg hab1, if_neg hab2] at hab
        by_cases hac1 : a < c
        · simp [hac1]
        · by_cases hac2 : c < a
          · rw [if_neg hac1, if_pos hac2] at hbc; exact absurd hbc (by simp)
          · rw [if_neg hac1, if_neg hac2] at hbc ⊢
            exact natListLe_trans as bs cs hab hbc

instance : IsTotal (String × Record) keyLe :=
  ⟨fun a b => natListLe_total (a.1.toList.map Char.toNat) (b.1.toList.map Char.toNat)⟩

instance : IsTrans (String × Record) keyLe :=
  ⟨fun a b c hab hbc =>
    natListLe_trans (a.1.toList.map Char.toNat) (b.1.toList.map Char.toNat)
      (c.1.toList.map Char.toNat) hab hbc⟩

/-- `merge_file_records(existing, physical)` (lines 133–168): the two
merge passes followed by the lexicographic sort of the items by path
(Python `sorted` is a stable sort; insertion sort is stable, and the keys
coming from dictionaries are unique anyway). -/
def merge_file_records (existing : FileMap) (physical : PhysMap) : FileMap :=
  List.insertionSort keyLe (mergePass2 (mergePass1 existing physical) physical)

/-- Numeric value of a digit string: `int(m.group(1).lstrip('0') or '0')`
(line 116) — stripping leading zeros does not change the numeric value. -/
def digitsVal (ds : List Char) : Nat :=
  ds.foldl (fun a c => a * 10 + (c.toNat - 48)) 0

/-- The maximal digit suffix of a character list. -/
def maxDigitSuffix (B : List Char) : List Char :=
  (B.reverse.takeWhile Char.isDigit).reverse

/-- The part number captured by `re.search(r"part(\d+)\.rar$", name)`
(line 115), or `none` when the pattern does not match.  Because the
pattern is anchored at the end, a match exists exactly when `name` ends in
`".rar"` and, writing `B` for `name` with that extension removed, the
maximal digit suffix of `B` is nonempty and directly preceded by
`"part"`: the capture group's digits sit directly before `".rar"`, and
the character before the group is the `'t'` of `"part"`, a non-digit, so
the group is exactly the maximal digit run before the extension. -/
def partCore (B : List Char) : Option Nat :=
  if maxDigitSuffix B ≠ [] ∧
      [ 'p', 'a', 'r', 't' ] <:+ B.take (B.length - (maxDigitSuffix B).length) then
    some (digitsVal (maxDigitSuffix B))
  else none

def part_number (name : List Char) : Option Nat :=
  if name.length ≥ 4 ∧ name.drop (name.length - 4) = [ '.', 'r', 'a', 'r' ] then
    partCore (name.take (name.length - 4))
  else none

/-- `is_first_volume(filename)` (lines 112–117): lowercase the filename
and search for the multi-volume pattern; a parsed part number means first
volume exactly when it equals 1; a filename the pattern does not match is
fail-open `True`. -/
def is_first_volume (filename : String) : Bool :=
  match part_number (lowerChars filename) with
  | some n => n == 1
  | none => true

/-- The encryption test of `process_file` (lines 200–201): the lowercased
transcript contains `"password"` or `"encrypted"` as a substring. -/
def is_encrypted (output : String) : Bool :=
  decide ("password".toList <:+: lowerChars output) ||
  decide ("encrypted".toList <:+: lowerChars output)

/-- The result classification and record update applied by `process_file`
once the external verifier has exited (lines 210–221): records already
`deleted` are not touched; otherwise exit status 0 gives `success`, a
transcript with an encryption marker gives `encrypted`, any other failure
gives `failure` unless the global `exit_flag` is set, in which case the
record is left untouched. -/
def update_record (returncode : Int) (output : String) (exit_flag : Bool)
    (record : Record) : Record :=
  if record.result ≠ VResult.deleted then
    if returncode = 0 then { record with result := VResult.success }
    else if is_encrypted output then { record with result := VResult.encrypted }
    else if exit_flag = false then { record with result := VResult.failure }
    else record
  else record

/-- The store mutation performed by one `process_file` task on the loaded
store (lines 208–223): look the path up in `data["files"]`; when found,
apply `update_record` (which leaves `deleted` records untouched); a path
with no record is left alone. -/
def process_file_update (file_path : String) (returncode : Int) (output : String)
    (exit_flag : Bool) (files : FileMap) : FileMap :=
  match alookup file_path files with
  | some record => setKey file_path (update_record returncode output exit_flag record) files
  | none => files

/-! ### File-system effects of the two persistence sites -/

/-- The content state of one file on disk. -/
inductive FileState
  | absent
  | truncated
  | full (content : String)
deriving DecidableEq

/-- The primitive file operations the program performs when persisting:
opening a path with mode `"w"` (which truncates it), completing a write
of serialized content, and `os.replace` (atomic rename over the
destination). -/
inductive FsAction
  | openTrunc (f : String)
  | writeAll (f : String) (c : String)
  | replace (src dst : String)
deriving DecidableEq

/-- Effect of one primitive operation on the disk. -/
def runAction (fs : String → FileState) : FsAction → String → FileState
  | FsAction.openTrunc f => fun g => if g = f then FileState.truncated else fs g
  | FsAction.writeAll f c => fun g => if g = f then FileState.full c else fs g
  | FsAction.replace src dst => fun g =>
      if g = dst then fs src else if g = src then FileState.absent else fs g

/-- Run a sequence of primitive operations.  A crash or a concurrent read
is modelled by observing the disk after a prefix of the sequence. -/
def runTrace (fs : String → FileState) (tr : List FsAction) : String → FileState :=
  tr.foldl runAction fs

/-- The temporary file name used by `process_file` (line 181):
`f"{result_file}.tmp.{os.getpid()}.{threading.get_ident()}"`. -/
def tempName (result_file : String) (pid tid : Nat) : String :=
  result_file ++ ".tmp." ++ toString pid ++ "." ++ toString tid

/-- The persistence performed by `process_file` after classifying a result
(lines 225–228): write the serialized store to the temporary file, then
`os.replace` it over the destination. -/
def process_file_save_trace (result_file : String) (pid tid : Nat)
    (content : String) : List FsAction :=
  [ FsAction.openTrunc (tempName result_file pid tid),
    FsAction.writeAll (tempName result_file pid tid) content,
    FsAction.replace (tempName result_file pid tid) result_file ]

/-- The persistence performed by `process_directory` after reconciliation
(lines 266–268): `open(result_file, "w")` followed by `json.dump` —
a direct in-place rewrite of the destination, with no temporary file. -/
def process_directory_save_trace (result_file : String)
    (content : String) : List FsAction :=
  [ FsAction.openTrunc result_file, FsAction.writeAll result_file content ]

/-- A disk holding exactly the destination store file with content
`old`. -/
def initDisk (result_file old : String) : String → FileState :=
  fun g => if g = result_file then FileState.full old else FileState.absent

/-- A persistence trace is atomic for its destination when every reader —
observing the disk after any prefix of the trace, i.e. at any crash
point — sees either the old complete content or the new complete
content of the destination, never a truncated or missing file. -/
def atomicFor (result_file old new : String) (tr : List FsAction) : Prop :=
  ∀ n : Nat, runTrace (initDisk result_file old) (tr.take n) result_file =
      FileState.full old ∨
    runTrace (initDisk result_file old) (tr.take n) result_file = FileState.full new

/-! ### Precondition checks of `main` -/

/-- Observable effects of a run of `main`. -/
inductive Effect
  | report (msg : String)
  | storeWrite
deriving DecidableEq

/-- `main` (lines 300–336), with the work of `process_directory`
abstracted as the effect list it would perform: resolve the target
directory and report `dir_not_exist` if it does not exist; otherwise
check the verifier executable and report `7z_not_found` if it is
missing; in both failure cases `main` simply `return`s, so the Python
process finishes normally with exit status 0.  All store writes happen
inside `process_directory`, which is only reached when both checks
pass. -/
def main_run (dirExists sevenZipExists : Bool)
    (processDirectoryEffects : List Effect) : List Effect × Nat :=
  if dirExists = false then ([Effect.report "dir_not_exist"], 0)
  else if sevenZipExists = false then ([Effect.report "7z_not_found"], 0)
  else (processDirectoryEffects, 0)

/-! ### Interleaving of concurrently completing verification tasks

`process_file` guards its load-modify-save cycle with
`with threading.Lock():` (line 204).  `threading.Lock()` constructs a
fresh lock object for each call, so every task acquires its own private
lock and no two tasks ever contend: the lock excludes nothing, and the
load and save steps of different tasks may interleave arbitrarily.  The
schedule semantics below therefore allows any interleaving of each
task's load step and save step. -/

/-- One verification task: the path it verified, and the exit status and
transcript returned by the external verifier. -/
structure Task where
  path : String
  returncode : Int
  output : String
deriving DecidableEq

/-- Scheduler state: the persisted store, and each task's loaded private
snapshot (`none` until its load step runs). -/
structure SchedState where
  shared : FileMap
  locals : List (Option FileMap)
deriving DecidableEq

/-- One schedule event: `(i, true)` is task `i`'s load step (read the
persisted store into its private snapshot), `(i, false)` is task `i`'s
save step (apply its `process_file_update` to its snapshot and persist
the result).  Events of tasks out of range, or saves before the task's
load, leave the state unchanged. -/
def stepSched (tasks : List Task) (exit_flag : Bool) (st : SchedState)
    (ev : Nat × Bool) : SchedState :=
  match tasks.get? ev.1 with
  | none => st
  | some task =>
    if ev.2 then
      { st with locals := st.locals.set ev.1 (some st.shared) }
    else
      match st.locals.get? ev.1 with
      | some (some snapshot) =>
        { st with shared :=
            process_file_update task.path task.returncode task.output exit_flag snapshot }
      | _ => st

/-- Run a whole schedule from an initial persisted store; the result is
the finally persisted store. -/
def runSched (tasks : List Task) (exit_flag : Bool) (init : FileMap)
    (sched : List (Nat × Bool)) : FileMap :=
  (sched.foldl (stepSched tasks exit_flag)
    ⟨init, List.replicate tasks.length none⟩).shared

/-- A schedule is a complete execution of the tasks when every task loads
exactly once and saves exactly once, in that order. -/
def completeSched (tasks : List Task) (sched : List (Nat × Bool)) : Prop :=
  ∀ i < tasks.length,
    sched.count (i, true) = 1 ∧ sched.count (i, false) = 1 ∧
    sched.indexOf (i, true) < sched.indexOf (i, false)

/-! ### Association-list lemmas -/

theorem alookup_cons {β : Type} (k k2 : String) (v : β) (rest : List (String × β)) :
    alookup k ((k2, v) :: rest) = if k2 = k then some v else alookup k rest := rfl

theorem keys_cons {β : Type} (k2 : String) (v : β) (rest : List (String × β)) :
    keys ((k2, v) :: rest) = k2 :: keys rest := rfl

theorem alookup_append_some {β : Type} {k : String} {v : β} :
    ∀ {l1 : List (String × β)} (l2 : List (String × β)),
      alookup k l1 = some v → alookup k (l1 ++ l2) = some v
  | [], _, h => by simp [alookup] at h
  | (k2, w) :: rest, l2, h => by
    rw [List.cons_append, alookup_cons]
    rw [alookup_cons] at h
    by_cases hk : k2 = k
    · simpa [hk] using h
    · rw [if_neg hk] at h ⊢
      exact alookup_append_some l2 h

theorem alookup_eq_none_iff {β : Type} {k : String} :
    ∀ {l : List (String × β)}, alookup k l = none ↔ k ∉ keys l
  | [] => by simp [alookup, keys]
  | (k2, w) :: rest => by
    rw [alookup_cons, keys_cons]
    by_cases hk : k2 = k
    · subst hk; simp
    · simp only [if_neg hk, List.mem_cons]
      rw [alookup_eq_none_iff (l := rest)]
      constructor
      · rintro h (h1 | h2)
        · exact hk h1.symm
        · exact h h2
      · intro h h2
        exact h (Or.inr h2)

theorem mem_of_alookup_eq_some {β : Type} {k : String} {v : β} :
    ∀ {l : List (String × β)}, alookup k l = some v → (k, v) ∈ l
  | [], h => by simp [alookup] at h
  | (k2, w) :: rest, h => by
    rw [alookup_cons] at h
    by_cases hk : k2 = k
    · rw [if_pos hk] at h
      obtain rfl : w = v := Option.some.inj h
      subst hk
      exact List.mem_cons_self _ _
    · rw [if_neg hk] at h
      exact List.mem_cons_of_mem _ (mem_of_alookup_eq_some h)

theorem alookup_eq_some_of_mem_nodup {β : Type} {k : String} {v : β} :
    ∀ {l : List (String × β)}, (keys l).Nodup → (k, v) ∈ l → alookup k l = some v
  | [], _, hmem => by simp at hmem
  | (k2, w) :: rest, hnd, hmem => by
    rw [keys_cons, List.nodup_cons] at hnd
    rw [alookup_cons]
    rcases List.mem_cons.mp hmem with heq | htail
    · have hk : k = k2 := congrArg Prod.fst heq
      have hv : v = w := congrArg Prod.snd heq
      subst hk
      simp [hv]
    · by_cases hk : k2 = k
      · subst hk
        exact absurd (List.mem_map_of_mem Prod.fst htail) hnd.1
      · rw [if_neg hk]
        exact alookup_eq_some_of_mem_nodup hnd.2 htail

theorem keys_perm {β : Type} {l l2 : List (String × β)} (h : l.Perm l2) :
    (keys l).Perm (keys l2) :=
  h.map Prod.fst

theorem alookup_perm {β : Type} {l l2 : List (String × β)} (h : l.Perm l2)
    (hnd : (keys l).Nodup) (k : String) : alookup k l = alookup k l2 := by
  cases hv : alookup k l with
  | none =>
    rw [alookup_eq_none_iff] at hv
    rw [eq_comm, alookup_eq_none_iff]
    intro hmem
    exact hv ((keys_perm h).mem_iff.mpr hmem)
  | some v =>
    rw [eq_comm]
    exact alookup_eq_some_of_mem_nodup ((keys_perm h).nodup_iff.mp hnd)
      (h.mem_iff.mp (mem_of_alookup_eq_some hv))

/-! ### Lemmas about the first merge pass -/

theorem mergePass1_cons (path : String) (record : Record) (rest : FileMap)
    (physical : PhysMap) :
    mergePass1 ((path, record) :: rest) physical =
      match alookup path physical with
      | none =>
        if record.result ≠ VResult.deleted then
          (path, ⟨VResult.deleted, record.timestamp⟩) :: mergePass1 rest physical
        else
          mergePass1 rest physical
      | some mtime =>
        (path, if record.timestamp ≠ mtime then ⟨VResult.unchecked, mtime⟩ else record)
          :: mergePass1 rest physical := rfl

theorem hasKey_iff {β : Type} {k : String} {l : List (String × β)} :
    hasKey k l = true ↔ k ∈ keys l := by
  unfold hasKey
  cases h : alookup k l with
  | none =>
    rw [alookup_eq_none_iff] at h
    simp [h]
  | some v =>
    simp only [Option.isSome_some, true_iff]
    exact List.mem_map_of_mem Prod.fst (mem_of_alookup_eq_some h)

theorem hasKey_eq_false_iff {β : Type} {k : String} {l : List (String × β)} :
    hasKey k l = false ↔ k ∉ keys l := by
  rw [← Bool.not_eq_true, not_iff_not]
  exact hasKey_iff

theorem mergePass1_lookup_present {existing : FileMap} {physical : PhysMap} {p : String}
    {r : Record} {t : Int} (he : alookup p existing = some r)
    (hp : alookup p physical = some t) :
    alookup p (mergePass1 existing physical) =
      some (if r.timestamp ≠ t then ⟨VResult.unchecked, t⟩ else r) := by
  induction existing with
  | nil => simp [alookup] at he
  | cons x rest ih =>
    obtain ⟨k2, rec⟩ := x
    rw [alookup_cons] at he
    by_cases hk : k2 = p
    · subst hk
      rw [if_pos rfl] at he
      obtain rfl : rec = r := Option.some.inj he
      simp only [mergePass1_cons, hp, alookup_cons, if_pos rfl]
      simp
    · rw [if_neg hk] at he
      simp only [mergePass1_cons]
      cases halo : alookup k2 physical with
      | none =>
        by_cases hd : rec.result ≠ VResult.deleted
        · rw [if_pos hd, alookup_cons, if_neg hk]
          exact ih he
        · rw [if_neg hd]
          exact ih he
      | some mt =>
        rw [alookup_cons, if_neg hk]
        exact ih he

theorem mergePass1_lookup_absent {existing : FileMap} {physical : PhysMap} {p : String}
    {r : Record} (he : alookup p existing = some r) (hp : alookup p physical = none)
    (hd : r.result ≠ VResult.deleted) :
    alookup p (mergePass1 existing physical) = some ⟨VResult.deleted, r.timestamp⟩ := by
  induction existing with
  | nil => simp [alookup] at he
  | cons x rest ih =>
    obtain ⟨k2, rec⟩ := x
    rw [alookup_cons] at he
    by_cases hk : k2 = p
    · subst hk
      rw [if_pos rfl] at he
      obtain rfl : rec = r := Option.some.inj he
      simp only [mergePass1_cons, hp, if_pos hd, alookup_cons, if_pos rfl]
      simp
    · rw [if_neg hk] at he
      simp only [mergePass1_cons]
      cases halo : alookup k2 physical with
      | none =>
        by_cases hd2 : rec.result ≠ VResult.deleted
        · rw [if_pos hd2, alookup_cons, if_neg hk]
          exact ih he
        · rw [if_neg hd2]
          exact ih he
      | some mt =>
        rw [alookup_cons, if_neg hk]
        exact ih he

theorem keys_mergePass1_sublist :
    ∀ (existing : FileMap) (physical : PhysMap),
      List.Sublist (keys (mergePass1 existing physical)) (keys existing)
  | [], _ => by simp [mergePass1, keys]
  | (path, record) :: rest, physical => by
    simp only [mergePass1_cons]
    cases halo : alookup path physical with
    | none =>
      by_cases hd : record.result ≠ VResult.deleted
      · rw [if_pos hd, keys_cons, keys_cons]
        exact (keys_mergePass1_sublist rest physical).cons₂ path
      · rw [if_neg hd, keys_cons]
        exact (keys_mergePass1_sublist rest physical).cons path
    | some mt =>
      rw [keys_cons, keys_cons]
      exact (keys_mergePass1_sublist rest physical).cons₂ path

theorem mergePass1_not_mem_of_deleted {existing : FileMap} {physical : PhysMap}
    {p : String} {r : Record} (hnd : (keys existing).Nodup)
    (he : alookup p existing = some r) (hp : alookup p physical = none)
    (hd : r.result = VResult.deleted) :
    p ∉ keys (mergePass1 existing physical) := by
  induction existing with
  | nil => simp [alookup] at he
  | cons x rest ih =>
    obtain ⟨k2, rec⟩ := x
    rw [keys_cons, List.nodup_cons] at hnd
    rw [alookup_cons] at he
    by_cases hk : k2 = p
    · subst hk
      rw [if_pos rfl] at he
      obtain rfl : rec = r := Option.some.inj he
      simp only [mergePass1_cons, hp, hd]
      rw [if_neg (by simp [hd])]
      intro hmem
      exact hnd.1 ((keys_mergePass1_sublist rest physical).subset hmem)
    · rw [if_neg hk] at he
      simp only [mergePass1_cons]
      cases halo : alookup k2 physical with
      | none =>
        by_cases hd2 : rec.result ≠ VResult.deleted
        · rw [if_pos hd2, keys_cons]
          intro hmem
          rcases List.mem_cons.mp hmem with h1 | h2
          · exact hk h1.symm
          · exact ih hnd.2 he h2
        · rw [if_neg hd2]
          exact ih hnd.2 he
      | some mt =>
        rw [keys_cons]
        intro hmem
        rcases List.mem_cons.mp hmem with h1 | h2
        · exact hk h1.symm
        · exact ih hnd.2 he h2

theorem mergePass1_entries :
    ∀ {existing : FileMap} {physical : PhysMap} (x : String × Record),
      x ∈ mergePass1 existing physical →
      (alookup x.1 physical = none ∧ x.2.result = VResult.deleted) ∨
        alookup x.1 physical = some x.2.timestamp
  | [], _, x, hx => by simp [mergePass1] at hx
  | (path, record) :: rest, physical, x, hx => by
    simp only [mergePass1_cons] at hx
    cases halo : alookup path physical with
    | none =>
      rw [halo] at hx
      by_cases hd : record.result ≠ VResult.deleted
      · rw [if_pos hd] at hx
        rcases List.mem_cons.mp hx with h1 | h2
        · subst h1
          exact Or.inl ⟨halo, rfl⟩
        · exact mergePass1_entries x h2
      · rw [if_neg hd] at hx
        exact mergePass1_entries x hx
    | some mt =>
      rw [halo] at hx
      rcases List.mem_cons.mp hx with h1 | h2
      · subst h1
        by_cases ht : record.timestamp ≠ mt
        · rw [if_pos ht]
          exact Or.inr halo
        · rw [if_neg ht]
          push_neg at ht
          exact Or.inr (ht ▸ halo)
      · exact mergePass1_entries x h2

theorem mergePass1_id :
    ∀ {m : FileMap} {physical : PhysMap},
      (∀ x ∈ m, alookup x.1 physical = some x.2.timestamp) →
      mergePass1 m physical = m
  | [], _, _ => rfl
  | (path, record) :: rest, physical, h => by
    have hhead := h (path, record) (List.mem_cons_self _ _)
    simp only at hhead
    simp only [mergePass1_cons, hhead]
    rw [if_neg (by simp)]
    rw [mergePass1_id (fun x hx => h x (List.mem_cons_of_mem _ hx))]

/-! ### Lemmas about the second merge pass -/

theorem mergePass2_cons (merged : FileMap) (path : String) (mtime : Int)
    (rest : PhysMap) :
    mergePass2 merged ((path, mtime) :: rest) =
      if hasKey path merged then mergePass2 merged rest
      else mergePass2 (merged ++ [(path, ⟨VResult.unchecked, mtime⟩)]) rest := rfl

theorem alookup_mergePass2_some {k : String} {v : Record} :
    ∀ {physical : PhysMap} {m : FileMap}, alookup k m = some v →
      alookup k (mergePass2 m physical) = some v
  | [], _, h => h
  | (path, mtime) :: rest, m, h => by
    rw [mergePass2_cons]
    by_cases hh : hasKey path m
    · rw [if_pos hh]
      exact alookup_mergePass2_some h
    · rw [if_neg hh]
      exact alookup_mergePass2_some (alookup_append_some _ h)

theorem not_mem_keys_mergePass2 {k : String} :
    ∀ {physical : PhysMap} {m : FileMap}, k ∉ keys m → k ∉ keys physical →
      k ∉ keys (mergePass2 m physical)
  | [], _, hm, _ => hm
  | (path, mtime) :: rest, m, hm, hp => by
    rw [keys_cons] at hp
    have hkp : k ≠ path := fun h => hp (h ▸ List.mem_cons_self _ _)
    have hrest : k ∉ keys rest := fun h => hp (List.mem_cons_of_mem _ h)
    rw [mergePass2_cons]
    by_cases hh : hasKey path m
    · rw [if_pos hh]
      exact not_mem_keys_mergePass2 hm hrest
    · rw [if_neg hh]
      refine not_mem_keys_mergePass2 ?_ hrest
      unfold keys
      rw [List.map_append]
      intro hmem
      rcases List.mem_append.mp hmem with h1 | h2
      · exact hm h1
      · simp at h2
        exact hkp h2

theorem keys_nodup_mergePass2 :
    ∀ {physical : PhysMap} {m : FileMap}, (keys m).Nodup →
      (keys (mergePass2 m physical)).Nodup
  | [], _, h => h
  | (path, mtime) :: rest, m, h => by
    rw [mergePass2_cons]
    by_cases hh : hasKey path m
    · rw [if_pos hh]
      exact keys_nodup_mergePass2 h
    · rw [if_neg hh]
      refine keys_nodup_mergePass2 ?_
      unfold keys
      rw [List.map_append]
      rw [List.nodup_append]
      refine ⟨h, by simp, ?_⟩
      intro a ha hb
      simp at hb
      subst hb
      rw [Bool.not_eq_true] at hh
      exact (hasKey_eq_false_iff.mp hh) ha

theorem mem_keys_mergePass2_of_mem {k : String} :
    ∀ {physical : PhysMap} {m : FileMap}, k ∈ keys m → k ∈ keys (mergePass2 m physical)
  | [], _, h => h
  | (path, mtime) :: rest, m, h => by
    rw [mergePass2_cons]
    by_cases hh : hasKey path m
    · rw [if_pos hh]
      exact mem_keys_mergePass2_of_mem h
    · rw [if_neg hh]
      refine mem_keys_mergePass2_of_mem ?_
      unfold keys
      rw [List.map_append]
      exact List.mem_append.mpr (Or.inl h)

theorem mem_keys_mergePass2_of_mem_phys {k : String} :
    ∀ {physical : PhysMap} {m : FileMap}, k ∈ keys physical →
      k ∈ keys (mergePass2 m physical)
  | [], _, h => by simp [keys] at h
  | (path, mtime) :: rest, m, h => by
    rw [keys_cons] at h
    rw [mergePass2_cons]
    rcases List.mem_cons.mp h with h1 | h2
    · subst h1
      by_cases hh : hasKey k m
      · rw [if_pos hh]
        exact mem_keys_mergePass2_of_mem (hasKey_iff.mp hh)
      · rw [if_neg hh]
        refine mem_keys_mergePass2_of_mem ?_
        unfold keys
        rw [List.map_append]
        refine List.mem_append.mpr (Or.inr ?_)
        simp
    · by_cases hh : hasKey path m
      · rw [if_pos hh]
        exact mem_keys_mergePass2_of_mem_phys h2
      · rw [if_neg hh]
        exact mem_keys_mergePass2_of_mem_phys h2

theorem mergePass2_entries :
    ∀ {physical : PhysMap} {m : FileMap} (x : String × Record), x ∈ mergePass2 m physical →
      x ∈ m ∨ (hasKey x.1 m = false ∧ alookup x.1 physical = some x.2.timestamp ∧
        x.2.result = VResult.unchecked)
  | [], _, x, hx => Or.inl hx
  | (path, mtime) :: rest, m, x, hx => by
    rw [mergePass2_cons] at hx
    by_cases hh : hasKey path m
    · rw [if_pos hh] at hx
      rcases mergePass2_entries x hx with h1 | ⟨h2, h3, h4⟩
      · exact Or.inl h1
      · refine Or.inr ⟨h2, ?_, h4⟩
        rw [alookup_cons]
        rw [if_neg ?_]
        · exact h3
        · intro hpk
          subst hpk
          rw [hh] at h2
          cases h2
    · rw [if_neg hh] at hx
      rcases mergePass2_entries x hx with h1 | ⟨h2, h3, h4⟩
      · rcases List.mem_append.mp h1 with hm | hnew
        · exact Or.inl hm
        · simp only [List.mem_singleton] at hnew
          subst hnew
          rw [Bool.not_eq_true] at hh
          refine Or.inr ⟨hh, ?_, rfl⟩
          rw [alookup_cons, if_pos rfl]
      · have hxm : hasKey x.1 m = false := by
          rw [hasKey_eq_false_iff] at h2 ⊢
          intro hmem
          refine h2 ?_
          unfold keys
          rw [List.map_append]
          exact List.mem_append.mpr (Or.inl hmem)
        have hxpath : x.1 ≠ path := by
          intro hpk
          rw [hasKey_eq_false_iff] at h2
          refine h2 ?_
          unfold keys
          rw [List.map_append]
          refine List.mem_append.mpr (Or.inr ?_)
          simp [hpk]
        refine Or.inr ⟨hxm, ?_, h4⟩
        rw [alookup_cons, if_neg fun h => hxpath h.symm]
        exact h3

theorem mergePass2_id :
    ∀ {physical : PhysMap} {m : FileMap},
      (∀ k ∈ keys physical, hasKey k m = true) → mergePass2 m physical = m
  | [], _, _ => rfl
  | (path, mtime) :: rest, m, h => by
    rw [mergePass2_cons]
    rw [if_pos (h path (List.mem_cons_self _ _))]
    exact mergePass2_id fun k hk => h k (List.mem_cons_of_mem _ hk)

/-! ### Lemmas about the sorted merge output -/

theorem merged_perm (existing : FileMap) (physical : PhysMap) :
    (merge_file_records existing physical).Perm
      (mergePass2 (mergePass1 existing physical) physical) :=
  List.perm_insertionSort keyLe _

theorem keys_nodup_passes {existing : FileMap} {physical : PhysMap}
    (hnd : (keys existing).Nodup) :
    (keys (mergePass2 (mergePass1 existing physical) physical)).Nodup :=
  keys_nodup_mergePass2 ((keys_mergePass1_sublist existing physical).nodup hnd)

theorem alookup_merged {existing : FileMap} {physical : PhysMap}
    (hnd : (keys existing).Nodup) (k : String) :
    alookup k (merge_file_records existing physical) =
      alookup k (mergePass2 (mergePass1 existing physical) physical) :=
  (alookup_perm (merged_perm existing physical).symm (keys_nodup_passes hnd) k).symm

/-- A path present in both the previous store and the snapshot with a
changed timestamp comes out of the merge reset to `unchecked` with the
observed timestamp. -/
theorem merged_lookup_changed {existing : FileMap} {physical : PhysMap} {p : String}
    {r : Record} {t : Int} (hnd : (keys existing).Nodup)
    (he : alookup p existing = some r) (hp : alookup p physical = some t)
    (ht : r.timestamp ≠ t) :
    alookup p (merge_file_records existing physical) =
      some ⟨VResult.unchecked, t⟩ := by
  rw [alookup_merged hnd]
  refine alookup_mergePass2_some ?_
  rw [mergePass1_lookup_present he hp, if_pos ht]

/-- A path present in both with an unchanged timestamp keeps its record. -/
theorem merged_lookup_unchanged {existing : FileMap} {physical : PhysMap} {p : String}
    {r : Record} {t : Int} (hnd : (keys existing).Nodup)
    (he : alookup p existing = some r) (hp : alookup p physical = some t)
    (ht : r.timestamp = t) :
    alookup p (merge_file_records existing physical) = some r := by
  rw [alookup_merged hnd]
  refine alookup_mergePass2_some ?_
  rw [mergePass1_lookup_present he hp, if_neg (by simp [ht])]

/-- A path that vanished from disk and was not yet `deleted` comes out of
the merge as `deleted` with its previous timestamp. -/
theorem merged_lookup_vanished {existing : FileMap} {physical : PhysMap} {p : String}
    {r : Record} (hnd : (keys existing).Nodup)
    (he : alookup p existing = some r) (hp : alookup p physical = none)
    (hd : r.result ≠ VResult.deleted) :
    alookup p (merge_file_records existing physical) =
      some ⟨VResult.deleted, r.timestamp⟩ := by
  rw [alookup_merged hnd]
  exact alookup_mergePass2_some (mergePass1_lookup_absent he hp hd)

/-- A record already `deleted` whose path is still absent from disk is
dropped from the merge output entirely. -/
theorem merged_lookup_dropped {existing : FileMap} {physical : PhysMap} {p : String}
    {r : Record} (hnd : (keys existing).Nodup)
    (he : alookup p existing = some r) (hp : alookup p physical = none)
    (hd : r.result = VResult.deleted) :
    alookup p (merge_file_records existing physical) = none := by
  rw [alookup_merged hnd, alookup_eq_none_iff]
  exact not_mem_keys_mergePass2 (mergePass1_not_mem_of_deleted hnd he hp hd)
    (alookup_eq_none_iff.mp hp)

/-- When every previously tracked path is still on disk, every entry of
the merge output carries the snapshot timestamp of its path. -/
theorem merged_entry_timestamp {existing : FileMap} {physical : PhysMap}
    (hsub : ∀ k ∈ keys existing, k ∈ keys physical) :
    ∀ x ∈ merge_file_records existing physical,
      alookup x.1 physical = some x.2.timestamp := by
  intro x hx
  have hx2 : x ∈ mergePass2 (mergePass1 existing physical) physical :=
    (merged_perm existing physical).mem_iff.mp hx
  rcases mergePass2_entries x hx2 with h1 | ⟨_, h3, _⟩
  · rcases mergePass1_entries x h1 with ⟨hnone, _⟩ | hsome
    · exfalso
      have hmem : x.1 ∈ keys existing :=
        (keys_mergePass1_sublist _ _).subset (List.mem_map_of_mem Prod.fst h1)
      exact (alookup_eq_none_iff.mp hnone) (hsub _ hmem)
    · exact hsome
  · exact h3

/-- Every snapshot path has an entry in the merge output. -/
theorem merged_keys_cover {existing : FileMap} {physical : PhysMap} :
    ∀ k ∈ keys physical, hasKey k (merge_file_records existing physical) = true := by
  intro k hk
  rw [hasKey_iff]
  exact (keys_perm (merged_perm existing physical)).mem_iff.mpr
    (mem_keys_mergePass2_of_mem_phys hk)

theorem merged_sorted (existing : FileMap) (physical : PhysMap) :
    List.Sorted keyLe (merge_file_records existing physical) :=
  List.sorted_insertionSort keyLe _

/-! ### Lemmas about the multi-volume pattern -/

theorem takeWhile_append_all {p : Char → Bool} :
    ∀ {xs : List Char} (ys : List Char), (∀ x ∈ xs, p x = true) →
      (xs ++ ys).takeWhile p = xs ++ ys.takeWhile p
  | [], ys, _ => by simp
  | x :: rest, ys, h => by
    rw [List.cons_append, List.takeWhile_cons, if_pos (h x (List.mem_cons_self _ _)),
      List.cons_append, takeWhile_append_all ys fun c hc => h c (List.mem_cons_of_mem _ hc)]

theorem maxDigitSuffix_decomp (pre ds : List Char)
    (hdig : ∀ c ∈ ds, c.isDigit = true) :
    maxDigitSuffix (pre ++ [ 'p', 'a', 'r', 't' ] ++ ds) = ds := by
  unfold maxDigitSuffix
  rw [List.reverse_append, List.reverse_append]
  have hds : ∀ c ∈ ds.reverse, c.isDigit = true := fun c hc =>
    hdig c (List.mem_reverse.mp hc)
  rw [takeWhile_append_all _ hds]
  have : (([ 'p', 'a', 'r', 't' ] : List Char).reverse ++ pre.reverse).takeWhile
      Char.isDigit = [] := by
    rw [show ([ 'p', 'a', 'r', 't' ] : List Char).reverse = [ 't', 'r', 'a', 'p' ] from rfl,
      List.cons_append, List.takeWhile_cons, if_neg (by decide)]
  rw [this, List.append_nil, List.reverse_reverse]

theorem partCore_decomp (pre ds : List Char) (hne : ds ≠ [])
    (hdig : ∀ c ∈ ds, c.isDigit = true) :
    partCore (pre ++ [ 'p', 'a', 'r', 't' ] ++ ds) = some (digitsVal ds) := by
  unfold partCore
  rw [maxDigitSuffix_decomp pre ds hdig]
  rw [if_pos]
  refine ⟨hne, ?_⟩
  have hlen : (pre ++ [ 'p', 'a', 'r', 't' ] ++ ds).length - ds.length =
      (pre ++ [ 'p', 'a', 'r', 't' ]).length := by
    simp [List.length_append]
    omega
  rw [hlen, List.take_left]
  exact List.suffix_append pre [ 'p', 'a', 'r', 't' ]

theorem part_number_decomp (pre ds : List Char) (hne : ds ≠ [])
    (hdig : ∀ c ∈ ds, c.isDigit = true) :
    part_number (pre ++ [ 'p', 'a', 'r', 't' ] ++ ds ++ [ '.', 'r', 'a', 'r' ]) =
      some (digitsVal ds) := by
  have hlen : (pre ++ [ 'p', 'a', 'r', 't' ] ++ ds ++ [ '.', 'r', 'a', 'r' ]).length =
      (pre ++ [ 'p', 'a', 'r', 't' ] ++ ds).length + 4 := by
    simp [List.length_append]
    omega
  unfold part_number
  rw [if_pos]
  · rw [List.take_left' (by omega)]
    exact partCore_decomp pre ds hne hdig
  · refine ⟨by omega, ?_⟩
    rw [List.drop_left' (by omega)]

theorem is_first_volume_decomp {filename : String} {pre ds : List Char}
    (h : lowerChars filename = pre ++ [ 'p', 'a', 'r', 't' ] ++ ds ++ [ '.', 'r', 'a', 'r' ])
    (hne : ds ≠ []) (hdig : ∀ c ∈ ds, c.isDigit = true) :
    is_first_volume filename = (digitsVal ds == 1) := by
  unfold is_first_volume
  rw [h, part_number_decomp pre ds hne hdig]

theorem is_first_volume_no_match {filename : String}
    (h : part_number (lowerChars filename) = none) : is_first_volume filename = true := by
  unfold is_first_volume
  rw [h]

/-! ### Claims -/

/-- Claim C1, as stated, is false on the code: a record whose result is
already `deleted` and whose path is still absent from the physical
snapshot is not kept in the reconciler's output mapping — merging a store
holding one such record with an empty snapshot yields the empty mapping,
so the record is physically removed. -/
theorem claim_C1_counterexample :
    merge_file_records [("a", ⟨VResult.deleted, 3⟩)] [] = [] ∧
    alookup "a" (merge_file_records [("a", ⟨VResult.deleted, 3⟩)] []) ≠
      some ⟨VResult.deleted, 3⟩ := by
  constructor
  · decide
  · decide

/-- Claim C1 (amended): for every previous store and physical snapshot, a
record whose path is absent from the snapshot transitions to `deleted`
with its prior timestamp if its result was not already `deleted`; a
record whose result was already `deleted` is removed from the
reconciler's output mapping (it is not retained). -/
theorem claim_C1_amended {existing : FileMap} {physical : PhysMap} {p : String}
    {r : Record} (hnd : (keys existing).Nodup)
    (he : alookup p existing = some r) (hp : alookup p physical = none) :
    (r.result ≠ VResult.deleted →
      alookup p (merge_file_records existing physical) =
        some ⟨VResult.deleted, r.timestamp⟩) ∧
    (r.result = VResult.deleted →
      alookup p (merge_file_records existing physical) = none) :=
  ⟨fun hd => merged_lookup_vanished hnd he hp hd,
   fun hd => merged_lookup_dropped hnd he hp hd⟩

/-- Witness for the amended claim C1 at a concrete store: one record not
yet deleted transitions to `deleted` keeping its timestamp, one already
deleted record is dropped. -/
theorem claim_C1_amended_witness :
    alookup "a" (merge_file_records
        [("a", ⟨VResult.unchecked, 3⟩), ("b", ⟨VResult.deleted, 7⟩)] []) =
      some ⟨VResult.deleted, 3⟩ ∧
    alookup "b" (merge_file_records
        [("a", ⟨VResult.unchecked, 3⟩), ("b", ⟨VResult.deleted, 7⟩)] []) = none :=
  ⟨(@claim_C1_amended [("a", ⟨VResult.unchecked, 3⟩), ("b", ⟨VResult.deleted, 7⟩)] []
      "a" ⟨VResult.unchecked, 3⟩ (by decide) (by decide) (by decide)).1 (by decide),
   (@claim_C1_amended [("a", ⟨VResult.unchecked, 3⟩), ("b", ⟨VResult.deleted, 7⟩)] []
      "b" ⟨VResult.deleted, 7⟩ (by decide) (by decide) (by decide)).2 rfl⟩

/-- Claim C5, as stated, is false on the code: reconciliation is not
idempotent in general.  Merging a store holding one `unchecked` record
with an empty snapshot marks it `deleted`; merging the result with the
same snapshot drops the record, so the second merge differs from the
first. -/
theorem claim_C5_counterexample :
    merge_file_records (merge_file_records [("a", ⟨VResult.unchecked, 0⟩)] []) [] ≠
      merge_file_records [("a", ⟨VResult.unchecked, 0⟩)] [] := by decide

/-- Claim C5 (amended): reconciliation is idempotent whenever every
previously tracked path is still present in the physical snapshot (so no
record transitions to `deleted`); in general a second merge with the same
snapshot additionally drops the records the first merge marked `deleted`
for paths absent from the snapshot. -/
theorem claim_C5_amended (existing : FileMap) (physical : PhysMap)
    (hsub : ∀ k ∈ keys existing, k ∈ keys physical) :
    merge_file_records (merge_file_records existing physical) physical =
      merge_file_records existing physical := by
  have h1 : mergePass1 (merge_file_records existing physical) physical =
      merge_file_records existing physical :=
    mergePass1_id (merged_entry_timestamp hsub)
  have h2 : mergePass2 (merge_file_records existing physical) physical =
      merge_file_records existing physical :=
    mergePass2_id fun k hk => merged_keys_cover k hk
  calc merge_file_records (merge_file_records existing physical) physical
      = List.insertionSort keyLe
          (mergePass2 (mergePass1 (merge_file_records existing physical) physical)
            physical) := rfl
    _ = merge_file_records existing physical := by
        rw [h1, h2]
        exact (merged_sorted existing physical).insertionSort_eq

/-- Witness for the amended claim C5: a store whose paths are all still
on disk (one unchanged, one with a changed timestamp, plus a new physical
file) merges idempotently. -/
theorem claim_C5_amended_witness :
    merge_file_records (merge_file_records
        [("a", ⟨VResult.success, 1⟩), ("b", ⟨VResult.failure, 2⟩)]
        [("a", 1), ("b", 5), ("c", 9)])
      [("a", 1), ("b", 5), ("c", 9)] =
    merge_file_records [("a", ⟨VResult.success, 1⟩), ("b", ⟨VResult.failure, 2⟩)]
      [("a", 1), ("b", 5), ("c", 9)] :=
  claim_C5_amended [("a", ⟨VResult.success, 1⟩), ("b", ⟨VResult.failure, 2⟩)]
    [("a", 1), ("b", 5), ("c", 9)] (by decide)

/-- Claim C6, as stated, is false on the code: a `deleted` record whose
path reappears with the *same* modification timestamp as stored is kept
unchanged (still `deleted`), not reset to `unchecked` — the reset happens
only via the timestamp-change branch. -/
theorem claim_C6_counterexample :
    alookup "a" (merge_file_records [("a", ⟨VResult.deleted, 5⟩)] [("a", 5)]) =
      some ⟨VResult.deleted, 5⟩ ∧
    alookup "a" (merge_file_records [("a", ⟨VResult.deleted, 5⟩)] [("a", 5)]) ≠
      some ⟨VResult.unchecked, 5⟩ := by
  constructor
  · decide
  · decide

/-- Claim C6 (amended): a `deleted` record whose path is present in the
snapshot transitions to `unchecked` (with the new timestamp) exactly when
the observed modification timestamp differs from the stored one; when the
timestamps are equal the record remains `deleted` unchanged. -/
theorem claim_C6_amended {existing : FileMap} {physical : PhysMap} {p : String}
    {ts t : Int} (hnd : (keys existing).Nodup)
    (he : alookup p existing = some ⟨VResult.deleted, ts⟩)
    (hp : alookup p physical = some t) :
    (ts ≠ t → alookup p (merge_file_records existing physical) =
      some ⟨VResult.unchecked, t⟩) ∧
    (ts = t → alookup p (merge_file_records existing physical) =
      some ⟨VResult.deleted, ts⟩) :=
  ⟨fun h => merged_lookup_changed hnd he hp h,
   fun h => merged_lookup_unchanged hnd he hp h⟩

/-- Witness for the amended claim C6: a reappeared file with a changed
timestamp resets to `unchecked`; one with the identical timestamp stays
`deleted`. -/
theorem claim_C6_amended_witness :
    alookup "a" (merge_file_records [("a", ⟨VResult.deleted, 5⟩)] [("a", 6)]) =
      some ⟨VResult.unchecked, 6⟩ ∧
    alookup "b" (merge_file_records [("b", ⟨VResult.deleted, 5⟩)] [("b", 5)]) =
      some ⟨VResult.deleted, 5⟩ :=
  ⟨(@claim_C6_amended [("a", ⟨VResult.deleted, 5⟩)] [("a", 6)] "a" 5 6
      (by decide) rfl rfl).1 (by decide),
   (@claim_C6_amended [("b", ⟨VResult.deleted, 5⟩)] [("b", 5)] "b" 5 5
      (by decide) rfl rfl).2 rfl⟩

/-- Claim C9: change detection — a path present in both the previous
store and the physical snapshot whose observed modification timestamp
differs from the stored one comes out of reconciliation as `unchecked`
with the new timestamp, regardless of its prior result. -/
theorem claim_C9 {existing : FileMap} {physical : PhysMap} {p : String}
    {r : Record} {t : Int} (hnd : (keys existing).Nodup)
    (he : alookup p existing = some r) (hp : alookup p physical = some t)
    (ht : r.timestamp ≠ t) :
    alookup p (merge_file_records existing physical) =
      some ⟨VResult.unchecked, t⟩ :=
  merged_lookup_changed hnd he hp ht

/-- Witness for claim C9: a previously successful record whose file
changed on disk is reset to `unchecked` with the new timestamp. -/
theorem claim_C9_witness :
    alookup "a" (merge_file_records [("a", ⟨VResult.success, 1⟩)] [("a", 2)]) =
      some ⟨VResult.unchecked, 2⟩ :=
  @claim_C9 [("a", ⟨VResult.success, 1⟩)] [("a", 2)] "a" ⟨VResult.success, 1⟩ 2
    (by decide) rfl rfl (by decide)

/-- Claim C7: classification of a completed verification of a dispatched
(`unchecked`) record, reading the branches as the ordered cascade of the
code: exit status 0 gives `success`; otherwise an encryption/password
marker in the transcript gives `encrypted`; otherwise, with cancellation
not active, `failure`; otherwise (cancellation active) the record is left
untouched, i.e. stays `unchecked`. -/
theorem claim_C7 (returncode : Int) (output : String) (exit_flag : Bool)
    (r : Record) (hr : r.result = VResult.unchecked) :
    (returncode = 0 →
      (update_record returncode output exit_flag r).result = VResult.success) ∧
    (returncode ≠ 0 → is_encrypted output = true →
      (update_record returncode output exit_flag r).result = VResult.encrypted) ∧
    (returncode ≠ 0 → is_encrypted output = false → exit_flag = false →
      (update_record returncode output exit_flag r).result = VResult.failure) ∧
    (returncode ≠ 0 → is_encrypted output = false → exit_flag = true →
      update_record returncode output exit_flag r = r) := by
  unfold update_record
  rw [if_pos (by simp [hr])]
  refine ⟨?_, ?_, ?_, ?_⟩
  · intro h0
    rw [if_pos h0]
  · intro hne henc
    rw [if_neg hne, if_pos henc]
  · intro hne henc hfl
    rw [if_neg hne, if_neg (by simp [henc]), if_pos hfl]
  · intro hne henc hfl
    rw [if_neg hne, if_neg (by simp [henc]), if_neg (by simp [hfl])]

/-- Witness for claim C7 at concrete outcomes: a clean exit, a failing
exit with a password marker, a plain failing exit, and a failing exit
under cancellation. -/
theorem claim_C7_witness :
    (update_record 0 "Everything is Ok" false ⟨VResult.unchecked, 1⟩).result =
      VResult.success ∧
    (update_record 2 "ERROR: Wrong PASSWORD in archive" false
      ⟨VResult.unchecked, 1⟩).result = VResult.encrypted ∧
    (update_record 2 "ERROR: CRC failed" false ⟨VResult.unchecked, 1⟩).result =
      VResult.failure ∧
    update_record 2 "ERROR: CRC failed" true ⟨VResult.unchecked, 1⟩ =
      ⟨VResult.unchecked, 1⟩ :=
  ⟨(claim_C7 0 "Everything is Ok" false ⟨VResult.unchecked, 1⟩ rfl).1 rfl,
   (claim_C7 2 "ERROR: Wrong PASSWORD in archive" false ⟨VResult.unchecked, 1⟩
      rfl).2.1 (by decide) (by decide),
   (claim_C7 2 "ERROR: CRC failed" false ⟨VResult.unchecked, 1⟩ rfl).2.2.1
      (by decide) (by decide) rfl,
   (claim_C7 2 "ERROR: CRC failed" true ⟨VResult.unchecked, 1⟩ rfl).2.2.2
      (by decide) (by decide) rfl⟩

/-- Claim C8: among the files of a multi-part split `.rar` archive,
exactly the first volume is a candidate.  For a filename whose lowercase
form ends in `part<digits>.rar`, `is_first_volume` returns `true` exactly
when the digits' numeric value is 1 (with or without leading zeros), so
later parts are skipped; and a `.rar` filename the pattern does not match
is treated as a first volume (fail-open). -/
theorem claim_C8 (filename : String) (pre ds : List Char) :
    (lowerChars filename =
        pre ++ [ 'p', 'a', 'r', 't' ] ++ ds ++ [ '.', 'r', 'a', 'r' ] →
      ds ≠ [] → (∀ c ∈ ds, c.isDigit = true) →
      (is_first_volume filename = true ↔ digitsVal ds = 1)) ∧
    (part_number (lowerChars filename) = none → is_first_volume filename = true) := by
  constructor
  · intro h hne hdig
    rw [is_first_volume_decomp h hne hdig]
    simp
  · exact is_first_volume_no_match

/-- Witness for claim C8 on the specification's own examples:
`archive.part1.rar` and `archive.part01.rar` are candidates,
`archive.part2.rar` and `archive.part02.rar` are not, and plain
`archive.rar` (no part pattern) is fail-open a candidate. -/
theorem claim_C8_witness :
    (is_first_volume "archive.part1.rar" = true ↔ digitsVal [ '1' ] = 1) ∧
    (is_first_volume "archive.part01.rar" = true ↔ digitsVal [ '0', '1' ] = 1) ∧
    (is_first_volume "archive.part2.rar" = true ↔ digitsVal [ '2' ] = 1) ∧
    (is_first_volume "archive.part02.rar" = true ↔ digitsVal [ '0', '2' ] = 1) ∧
    (is_first_volume "archive.rar" = true) :=
  ⟨(claim_C8 "archive.part1.rar" "archive.".toList [ '1' ]).1
      (by decide) (by decide) (by decide),
   (claim_C8 "archive.part01.rar" "archive.".toList [ '0', '1' ]).1
      (by decide) (by decide) (by decide),
   (claim_C8 "archive.part2.rar" "archive.".toList [ '2' ]).1
      (by decide) (by decide) (by decide),
   (claim_C8 "archive.part02.rar" "archive.".toList [ '0', '2' ]).1
      (by decide) (by decide) (by decide),
   (claim_C8 "archive.rar" [] []).2 (by decide)⟩

/-- Claim C10: a `.rar` filename whose part number parses to zero (such
as `x.part0.rar` or `x.part00.rar`) is not a first volume —
`is_first_volume` returns `false`, so fail-open applies only to
unparsable part numbers, not to parsed zeros. -/
theorem claim_C10 (filename : String) (pre ds : List Char)
    (h : lowerChars filename =
      pre ++ [ 'p', 'a', 'r', 't' ] ++ ds ++ [ '.', 'r', 'a', 'r' ])
    (hne : ds ≠ []) (hdig : ∀ c ∈ ds, c.isDigit = true)
    (hzero : digitsVal ds = 0) :
    is_first_volume filename = false := by
  rw [is_first_volume_decomp h hne hdig, hzero]
  rfl

/-- Witness for claim C10: `x.part0.rar` is excluded. -/
theorem claim_C10_witness : is_first_volume "x.part0.rar" = false :=
  claim_C10 "x.part0.rar" "x.".toList [ '0' ] (by decide) (by decide)
    (by decide) rfl

theorem tempName_ne (result_file : String) (pid tid : Nat) :
    tempName result_file pid tid ≠ result_file := by
  intro h
  have hl := congrArg String.length h
  have h5 : (".tmp." : String).length = 5 := rfl
  have h1 : ("." : String).length = 1 := rfl
  rw [tempName] at hl
  simp only [String.length_append, h5, h1] at hl
  omega

/-- Claim C2, as stated, is false on the code: the write after
reconciliation in `process_directory` opens the destination store file
itself with mode `"w"` (truncating it) and dumps into it — no temporary
file is involved.  After the first step of its trace (a crash point or a
concurrent read) the destination is truncated, so a reader can observe a
partially written store file. -/
theorem claim_C2_counterexample :
    ¬ atomicFor "result.json" "old" "new"
        (process_directory_save_trace "result.json" "new") := by
  intro h
  rcases h 1 with h1 | h1
  · exact absurd h1 (by decide)
  · exact absurd h1 (by decide)

/-- Claim C2 (amended): only the per-verification persist of
`process_file` is atomic — it serializes to the unique temporary file and
atomically replaces the destination, so a reader at any crash point sees
either the old or the new complete content; the post-reconciliation write
of `process_directory` rewrites the destination in place and is not
atomic. -/
theorem claim_C2_amended (result_file old new : String) (pid tid : Nat) :
    atomicFor result_file old new (process_file_save_trace result_file pid tid new) ∧
    ¬ atomicFor result_file old new (process_directory_save_trace result_file new) := by
  have hne : result_file ≠ tempName result_file pid tid :=
    fun h => tempName_ne result_file pid tid h.symm
  constructor
  · intro n
    match n with
    | 0 =>
      left
      simp [runTrace, initDisk]
    | 1 =>
      left
      simp [process_file_save_trace, runTrace, runAction, initDisk, hne]
    | 2 =>
      left
      simp [process_file_save_trace, runTrace, runAction, initDisk, hne]
    | (n + 3) =>
      right
      rw [List.take_of_length_le (by simp [process_file_save_trace])]
      simp [process_file_save_trace, runTrace, runAction, initDisk, hne]
  · intro h
    rcases h 1 with h1 | h1 <;>
      simp [process_directory_save_trace, runTrace, runAction, initDisk] at h1

/-- Witness for the amended claim C2 at a concrete destination and
writer identity. -/
theorem claim_C2_amended_witness :
    atomicFor "result.json" "old" "new"
      (process_file_save_trace "result.json" 12 34 "new") ∧
    ¬ atomicFor "result.json" "old" "new"
      (process_directory_save_trace "result.json" "new") :=
  claim_C2_amended "result.json" "old" "new" 12 34

/-- Claim C4, as stated, is false on the code: on a precondition failure
`main` prints the message and plainly `return`s, so the Python process
finishes normally — the exit status is 0, not non-zero.  Shown here for a
missing target directory and for an unresolvable verifier path. -/
theorem claim_C4_counterexample :
    (main_run false true [Effect.storeWrite]).2 = 0 ∧
    (main_run true false [Effect.storeWrite]).2 = 0 := by
  constructor
  · rfl
  · rfl

/-- Claim C4 (amended): when the target directory does not exist or the
verifier executable path does not resolve, the program reports the error
and performs no store mutation — but it exits with status 0, not with a
non-zero status. -/
theorem claim_C4_amended (dirExists sevenZipExists : Bool) (es : List Effect)
    (h : dirExists = false ∨ sevenZipExists = false) :
    (∃ msg, Effect.report msg ∈ (main_run dirExists sevenZipExists es).1) ∧
    Effect.storeWrite ∉ (main_run dirExists sevenZipExists es).1 ∧
    (main_run dirExists sevenZipExists es).2 = 0 := by
  rcases h with h | h
  · subst h
    refine ⟨⟨"dir_not_exist", ?_⟩, ?_, rfl⟩
    · simp [main_run]
    · simp [main_run]
  · subst h
    cases dirExists with
    | false =>
      refine ⟨⟨"dir_not_exist", ?_⟩, ?_, rfl⟩
      · simp [main_run]
      · simp [main_run]
    | true =>
      refine ⟨⟨"7z_not_found", ?_⟩, ?_, rfl⟩
      · simp [main_run]
      · simp [main_run]

/-- Witness for the amended claim C4: a run with a missing target
directory reports, writes no store, exits 0. -/
theorem claim_C4_amended_witness :
    (∃ msg, Effect.report msg ∈ (main_run false true [Effect.storeWrite]).1) ∧
    Effect.storeWrite ∉ (main_run false true [Effect.storeWrite]).1 ∧
    (main_run false true [Effect.storeWrite]).2 = 0 :=
  claim_C4_amended false true [Effect.storeWrite] (Or.inl rfl)

/-- Claim C3's guarantee fails on the code.  `process_file` wraps its
load-modify-save cycle in `with threading.Lock():`, but `threading.Lock()`
constructs a *fresh* lock per call, so no two tasks ever contend and any
interleaving of their load and save steps is possible.  Here two complete
schedules of the same two tasks (both verifying successfully, no
cancellation) disagree on the final persisted store: the serial schedule
records both successes, while the schedule that interleaves the two
load-modify-save cycles loses task 0's update — so the final persisted
store does depend on the completion interleaving. -/
theorem claim_C3_lost_update :
    completeSched [⟨"a", 0, "ok"⟩, ⟨"b", 0, "ok"⟩]
        [(0, true), (0, false), (1, true), (1, false)] ∧
    completeSched [⟨"a", 0, "ok"⟩, ⟨"b", 0, "ok"⟩]
        [(0, true), (1, true), (0, false), (1, false)] ∧
    runSched [⟨"a", 0, "ok"⟩, ⟨"b", 0, "ok"⟩] false
        [("a", ⟨VResult.unchecked, 1⟩), ("b", ⟨VResult.unchecked, 2⟩)]
        [(0, true), (0, false), (1, true), (1, false)] ≠
      runSched [⟨"a", 0, "ok"⟩, ⟨"b", 0, "ok"⟩] false
        [("a", ⟨VResult.unchecked, 1⟩), ("b", ⟨VResult.unchecked, 2⟩)]
        [(0, true), (1, true), (0, false), (1, false)] := by
  refine ⟨?_, ?_, by decide⟩
  · unfold completeSched
    decide
  · unfold completeSched
    decide

end ArchiveVerifier
